import Mathlib

/-!
Verification of the fraction-calculator core (`src/fraction_calculator/src/`):
the `Fraction` value type (`fraction.rs`) and the expression pipeline
tokenize → shunting-yard → RPN evaluation (`equation.rs`).

Modelling conventions:
* Rust `i32` values are modelled as unbounded `Int`; overflow is outside the
  properties considered here (the spec itself treats integer width as an
  implementation parameter).  The `i32` range check performed by Rust's
  `str::parse::<i32>` is kept in the literal parser, where a failed parse is
  observable as a tokenization error.
* Rust's subtractive `gcd` `while` loop is modelled by the fuelled step
  function `gcdLoop`; `none` means the loop has not exited within the given
  fuel (in particular, a run that diverges returns `none` for every fuel).
  `gcdI` supplies fuel `|a| + |b|`, which is proved sufficient whenever both
  arguments are nonzero — exactly the situation in which `simplify` calls it.
* Stacks (`Vec` with `push`/`pop`/`last`) are lists with the top at the head;
  `stackPop` models `Vec::pop`, `List.head?` models `Vec::last`.
* Fallible Rust functions returning `Result<_, EquationError>` become
  `Except EquationError _`; `Fraction::from_str` becomes an `Option`.
-/

namespace FracCalc

/-- Fraction from `fraction.rs`: a raw numerator/denominator pair, with no
invariant enforced at construction. -/
@[ext]
structure Fraction where
  numerator : Int
  denominator : Int
deriving DecidableEq

/-- One iteration structure of the subtractive gcd `while` loop in
`fraction.rs` (`while a != b { ... }`, subtracting the smaller from the
larger), run on the absolute values with explicit fuel; `none` models the
loop still running after `fuel` iterations. -/
def gcdLoop : Nat → Nat → Nat → Option Nat
  | 0, _, _ => none
  | fuel + 1, a, b =>
    if a = b then some a
    else if a < b then gcdLoop fuel a (b - a)
    else gcdLoop fuel (a - b) b

/-- `gcd` from `fraction.rs`: convert both arguments to their absolute
values, then run the subtractive loop.  Fuel `|a| + |b|` is proved
sufficient for nonzero arguments (`gcdLoop_computes_gcd`); the `none`
fallback (value `0`) corresponds to a run of the Rust loop that never
exits and is unreachable under `simplify`'s zero/undefined guard. -/
def gcdI (a b : Int) : Int :=
  match gcdLoop (a.natAbs + b.natAbs) a.natAbs b.natAbs with
  | some g => (g : Int)
  | none => 0

/-- `Fraction::is_zero`. -/
def Fraction.is_zero (f : Fraction) : Bool :=
  f.numerator == 0

/-- `Fraction::is_undefined`. -/
def Fraction.is_undefined (f : Fraction) : Bool :=
  f.denominator == 0

/-- `Fraction::simplify`: no-op on zero or undefined fractions, otherwise
divide both components by their gcd and make the denominator positive.
The divisions are exact (the gcd divides both components), so Lean's `/`
on `Int` agrees with Rust's truncating division here. -/
def Fraction.simplify (f : Fraction) : Fraction :=
  if f.is_zero || f.is_undefined then f
  else
    let g := gcdI f.numerator f.denominator
    let n := f.numerator / g
    let d := f.denominator / g
    if d < 0 then ⟨-n, -d⟩ else ⟨n, d⟩

/-- `Fraction::clone_simplified`. -/
def Fraction.clone_simplified (f : Fraction) : Fraction :=
  f.simplify

/-- `Fraction::reciprocal`: swap numerator and denominator, with no guard
against a zero numerator. -/
def Fraction.reciprocal (f : Fraction) : Fraction :=
  ⟨f.denominator, f.numerator⟩

/-- `Fraction::is_same_as`: componentwise comparison of the raw
representation. -/
def Fraction.is_same_as (f1 f2 : Fraction) : Bool :=
  f1.numerator == f2.numerator && f1.denominator == f2.denominator

/-- `impl Add for Fraction`: common-denominator shortcut, otherwise
cross-multiplication; the result is not normalized. -/
def fadd (a b : Fraction) : Fraction :=
  if a.denominator = b.denominator then
    ⟨a.numerator + b.numerator, a.denominator⟩
  else
    ⟨a.numerator * b.denominator + b.numerator * a.denominator,
     a.denominator * b.denominator⟩

/-- `impl Neg for Fraction`. -/
def fneg (a : Fraction) : Fraction :=
  ⟨-a.numerator, a.denominator⟩

/-- `impl Sub for Fraction`: `self + -other`. -/
def fsub (a b : Fraction) : Fraction :=
  fadd a (fneg b)

/-- `impl Mul for Fraction`. -/
def fmul (a b : Fraction) : Fraction :=
  ⟨a.numerator * b.numerator, a.denominator * b.denominator⟩

/-- `impl Div for Fraction`: multiplication by the reciprocal, with no
zero guard. -/
def fdiv (a b : Fraction) : Fraction :=
  fmul a b.reciprocal

/-- `impl PartialEq for Fraction`: representation equality short-circuit,
otherwise compare the simplified clones. -/
def feq (f1 f2 : Fraction) : Bool :=
  if f1.is_same_as f2 then true
  else (f1.clone_simplified).is_same_as (f2.clone_simplified)

/-- Rational value denoted by a fraction (meaningful when the denominator
is nonzero); used only in specification statements, not by the code
model. -/
def toRat (f : Fraction) : ℚ :=
  (f.numerator : ℚ) / (f.denominator : ℚ)

/-- Accumulating decimal-digit parser: `none` as soon as a non-digit
appears (mirrors the per-character failure of Rust's integer parse). -/
def digitsVal : List Char → Nat → Option Nat
  | [], acc => some acc
  | c :: cs, acc =>
    if c.isDigit then digitsVal cs (acc * 10 + (c.toNat - 48)) else none

/-- Rust `str::parse::<i32>` on a word: an optional sign followed by at
least one decimal digit, rejecting values outside the `i32` range. -/
def parseI32 (w : List Char) : Option Int :=
  let sd : Int × List Char :=
    match w with
    | '+' :: rest => (1, rest)
    | '-' :: rest => (-1, rest)
    | _ => (1, w)
  if sd.2 = [] then none
  else
    match digitsVal sd.2 0 with
    | some v =>
      let n : Int := sd.1 * (v : Int)
      if -2147483648 ≤ n ∧ n ≤ 2147483647 then some n else none
    | none => none

/-- Split a word at its first `/` (Rust `s.find('/')` with the two
substrings around it); `none` when no slash occurs. -/
def splitSlash : List Char → Option (List Char × List Char)
  | [] => none
  | c :: cs =>
    if c = '/' then some ([], cs)
    else
      match splitSlash cs with
      | some (pre, post) => some (c :: pre, post)
      | none => none

/-- `impl FromStr for Fraction`: `a/b` with both parts `i32` literals, or
a bare `i32` literal over denominator 1. -/
def fromStr (w : List Char) : Option Fraction :=
  match splitSlash w with
  | some (pre, post) =>
    match parseI32 pre with
    | some n =>
      match parseI32 post with
      | some d => some ⟨n, d⟩
      | none => none
    | none => none
  | none => (parseI32 w).map fun n => (⟨n, 1⟩ : Fraction)

/-- `OperatorType` from `equation.rs`. -/
inductive OperatorType where
  | Add
  | Sub
  | Mul
  | Div
deriving DecidableEq

/-- `OperatorType::precedence`. -/
def OperatorType.precedence : OperatorType → Int
  | .Add => 0
  | .Sub => 0
  | .Mul => 1
  | .Div => 1

/-- `Token` from `equation.rs`. -/
inductive Token where
  | Number (f : Fraction)
  | Operator (op : OperatorType)
deriving DecidableEq

/-- `EquationError` from `equation.rs`. -/
inductive EquationError where
  | UnableToTokenize
  | UnableToConvertToPostfix
  | UnableToEvaluate
deriving DecidableEq

/-- `Vec::pop` on a stack whose top is the list head. -/
def stackPop : List Token → Option (Token × List Token)
  | [] => none
  | t :: ts => some (t, ts)

/-- Rust `str::split(' ')`: split on every single space, keeping empty
segments (so the empty input yields one empty word). -/
def splitSpaces : List Char → List (List Char)
  | [] => [[]]
  | c :: cs =>
    if c = ' ' then [] :: splitSpaces cs
    else
      match splitSpaces cs with
      | w :: ws => (c :: w) :: ws
      | [] => [[c]]

/-- Classification of one word inside `Equation::tokenize`: the four exact
operator symbols, otherwise `Fraction::from_str`. -/
def classifyToken (w : List Char) : Option Token :=
  match w with
  | ['+'] => some (Token.Operator OperatorType.Add)
  | ['-'] => some (Token.Operator OperatorType.Sub)
  | ['*'] => some (Token.Operator OperatorType.Mul)
  | ['/'] => some (Token.Operator OperatorType.Div)
  | _ => (fromStr w).map Token.Number

/-- Loop body of `Equation::tokenize`: push each classified token,
returning the error as soon as a word fails to classify. -/
def tokenizeWords : List (List Char) → Except EquationError (List Token)
  | [] => .ok []
  | w :: ws =>
    match classifyToken w with
    | some t =>
      match tokenizeWords ws with
      | .ok ts => .ok (t :: ts)
      | .error e => .error e
    | none => .error EquationError.UnableToTokenize

/-- `Equation::tokenize`. -/
def tokenize (input : String) : Except EquationError (List Token) :=
  tokenizeWords (splitSpaces input.toList)

/-- Inner `while let` of `Equation::shunting_yard_algorithm`: while the
operator-stack top is an operator of precedence at least that of the
current operator, pop it to the output queue; the `ConversionError`
branch fires when the pop following a successful peek fails. -/
def syaOpLoop (cur : OperatorType) (stack out : List Token) :
    Except EquationError (List Token × List Token) :=
  match stack.head? with
  | some (Token.Operator top) =>
    if top.precedence < cur.precedence then .ok (stack, out)
    else
      match stack with
      | tk :: rest => syaOpLoop cur rest (out ++ [tk])
      | [] => .error EquationError.UnableToConvertToPostfix
  | _ => .ok (stack, out)

/-- Main loop of `Equation::shunting_yard_algorithm`: numbers go straight
to the output queue; an operator first drains higher-or-equal-precedence
operators from the stack, then is pushed; at the end the remaining stack
is drained onto the output. -/
def syaMain : List Token → List Token → List Token → Except EquationError (List Token)
  | [], out, stack => .ok (out ++ stack)
  | t :: ts, out, stack =>
    match t with
    | Token.Number _ => syaMain ts (out ++ [t]) stack
    | Token.Operator cur =>
      match syaOpLoop cur stack out with
      | .ok (stack2, out2) => syaMain ts out2 (t :: stack2)
      | .error e => .error e

/-- `Equation::shunting_yard_algorithm`. -/
def shunting_yard_algorithm (tokens : List Token) : Except EquationError (List Token) :=
  syaMain tokens [] []

/-- Operator application inside `Equation::evaluate_rpn` (`num1` is the
second value popped, `num2` the first). -/
def applyOp (op : OperatorType) (num1 num2 : Fraction) : Fraction :=
  match op with
  | .Add => fadd num1 num2
  | .Sub => fsub num1 num2
  | .Mul => fmul num1 num2
  | .Div => fdiv num1 num2

/-- Loop of `Equation::evaluate_rpn` plus its final pop: numbers are
pushed; an operator pops two numbers (stack underflow is an evaluation
error); after the loop a single value is popped from the stack and
returned — the source does not check that the stack is empty afterwards. -/
def evalRpnLoop : List Token → List Token → Except EquationError Fraction
  | [], stack =>
    match stackPop stack with
    | some (Token.Number num, _) => .ok num
    | _ => .error EquationError.UnableToEvaluate
  | t :: ts, stack =>
    match t with
    | Token.Number _ => evalRpnLoop ts (t :: stack)
    | Token.Operator op =>
      match stackPop stack with
      | some (Token.Number num2, s1) =>
        match stackPop s1 with
        | some (Token.Number num1, s2) =>
          evalRpnLoop ts (Token.Number (applyOp op num1 num2) :: s2)
        | _ => .error EquationError.UnableToEvaluate
      | _ => .error EquationError.UnableToEvaluate

/-- `Equation::evaluate_rpn`. -/
def evaluate_rpn (postfix' : List Token) : Except EquationError Fraction :=
  evalRpnLoop postfix' []

/-- `Equation::eval`: the full pipeline. -/
def eval (input : String) : Except EquationError Fraction :=
  match tokenize input with
  | .error e => .error e
  | .ok tokens =>
    match shunting_yard_algorithm tokens with
    | .error e => .error e
    | .ok rpn => evaluate_rpn rpn

/-! ### Properties of the subtractive gcd loop -/

theorem gcdLoop_computes_gcd : ∀ (fuel a b : Nat), a ≠ 0 → b ≠ 0 → a + b ≤ fuel →
    gcdLoop fuel a b = some (Nat.gcd a b) := by
  intro fuel
  induction fuel with
  | zero => intro a b ha _ hle; omega
  | succ fuel ih =>
    intro a b ha hb hle
    rw [gcdLoop]
    by_cases hab : a = b
    · subst hab; simp [Nat.gcd_self]
    · rw [if_neg hab]
      by_cases hlt : a < b
      · rw [if_pos hlt, ih a (b - a) ha (by omega) (by omega),
          Nat.gcd_sub_self_right (by omega)]
      · rw [if_neg hlt, ih (a - b) b (by omega) hb (by omega),
          Nat.gcd_sub_self_left (by omega)]

theorem gcdLoop_diverges_left : ∀ (fuel b : Nat), b ≠ 0 → gcdLoop fuel 0 b = none := by
  intro fuel
  induction fuel with
  | zero => intro b _; rfl
  | succ fuel ih =>
    intro b hb
    rw [gcdLoop, if_neg (by omega), if_pos (by omega)]
    simpa using ih b hb

theorem gcdLoop_diverges_right : ∀ (fuel a : Nat), a ≠ 0 → gcdLoop fuel a 0 = none := by
  intro fuel
  induction fuel with
  | zero => intro a _; rfl
  | succ fuel ih =>
    intro a ha
    rw [gcdLoop, if_neg (by omega), if_neg (by omega)]
    simpa using ih a ha

theorem gcdI_eq_gcd {a b : Int} (ha : a ≠ 0) (hb : b ≠ 0) :
    gcdI a b = (Int.gcd a b : Int) := by
  unfold gcdI
  rw [gcdLoop_computes_gcd _ _ _ (Int.natAbs_ne_zero.mpr ha) (Int.natAbs_ne_zero.mpr hb) le_rfl]
  rfl

/-! ### Properties of `simplify` -/

theorem simplify_noop {f : Fraction} (h : f.numerator = 0 ∨ f.denominator = 0) :
    f.simplify = f := by
  have hguard : (f.is_zero || f.is_undefined) = true := by
    rcases h with h | h <;> simp [Fraction.is_zero, Fraction.is_undefined, h]
  rw [Fraction.simplify, if_pos hguard]

theorem simplify_spec_core (f : Fraction) (hn : f.numerator ≠ 0) (hd : f.denominator ≠ 0) :
    0 < f.simplify.denominator ∧
    Int.gcd f.simplify.numerator f.simplify.denominator = 1 ∧
    f.simplify.numerator ≠ 0 ∧
    f.simplify.numerator * f.denominator = f.numerator * f.simplify.denominator := by
  have hguard : (f.is_zero || f.is_undefined) = false := by
    simp [Fraction.is_zero, Fraction.is_undefined, hn, hd]
  have hgpos : 0 < Int.gcd f.numerator f.denominator := Int.gcd_pos_iff.mpr (Or.inl hn)
  set G : Int := (Int.gcd f.numerator f.denominator : Int) with hG
  have hdvdn : G ∣ f.numerator := Int.gcd_dvd_left
  have hdvdd : G ∣ f.denominator := Int.gcd_dvd_right
  set n' : Int := f.numerator / G with hndef
  set d' : Int := f.denominator / G with hddef
  have hmn : G * n' = f.numerator := Int.mul_ediv_cancel' hdvdn
  have hmd : G * d' = f.denominator := Int.mul_ediv_cancel' hdvdd
  have hn' : n' ≠ 0 := by
    intro h0; rw [h0, mul_zero] at hmn; exact hn hmn.symm
  have hd' : d' ≠ 0 := by
    intro h0; rw [h0, mul_zero] at hmd; exact hd hmd.symm
  have hcop : Int.gcd n' d' = 1 := by
    rw [hndef, hddef, hG]; exact Int.gcd_div_gcd_div_gcd hgpos
  have hcross : n' * f.denominator = f.numerator * d' := by
    rw [← hmn, ← hmd]; ring
  have hsimp : f.simplify =
      if d' < 0 then (⟨-n', -d'⟩ : Fraction) else ⟨n', d'⟩ := by
    rw [Fraction.simplify, if_neg (by simp [hguard]), gcdI_eq_gcd hn hd, ← hG]
  rw [hsimp]
  by_cases hneg : d' < 0
  · rw [if_pos hneg]
    refine ⟨neg_pos.mpr hneg, ?_, neg_ne_zero.mpr hn', ?_⟩
    · rw [Int.neg_gcd, Int.gcd_neg]; exact hcop
    · rw [neg_mul, hcross, mul_neg]
  · rw [if_neg hneg]
    exact ⟨(not_lt.mp hneg).lt_of_ne (Ne.symm hd'), hcop, hn', hcross⟩

theorem toRat_simplify (f : Fraction) (hn : f.numerator ≠ 0) (hd : f.denominator ≠ 0) :
    toRat f.simplify = toRat f := by
  obtain ⟨hpos, _, _, hcross⟩ := simplify_spec_core f hn hd
  rw [toRat, toRat, div_eq_div_iff (by exact_mod_cast hpos.ne') (by exact_mod_cast hd)]
  exact_mod_cast hcross

/-! ### Uniqueness of reduced representations, and value-based equality -/

theorem reduced_unique {n1 d1 n2 d2 : ℤ} (h1 : 0 < d1) (h2 : 0 < d2)
    (c1 : Int.gcd n1 d1 = 1) (c2 : Int.gcd n2 d2 = 1)
    (h : n1 * d2 = n2 * d1) : n1 = n2 ∧ d1 = d2 := by
  have cop1 : IsCoprime n1 d1 := Int.gcd_eq_one_iff_coprime.mp c1
  have cop2 : IsCoprime n2 d2 := Int.gcd_eq_one_iff_coprime.mp c2
  have hd12 : d1 ∣ d2 := by
    refine cop1.symm.dvd_of_dvd_mul_left ⟨n2, ?_⟩
    rw [h, mul_comm]
  have hd21 : d2 ∣ d1 := by
    refine cop2.symm.dvd_of_dvd_mul_left ⟨n1, ?_⟩
    rw [← h, mul_comm]
  have hdeq : d1 = d2 := Int.dvd_antisymm h1.le h2.le hd12 hd21
  refine ⟨?_, hdeq⟩
  apply mul_right_cancel₀ h1.ne'
  rw [← hdeq] at h
  exact h

theorem toRat_eq_zero_of_num_eq_zero {f : Fraction} (h : f.numerator = 0) : toRat f = 0 := by
  simp [toRat, h]

theorem toRat_ne_zero {f : Fraction} (hn : f.numerator ≠ 0) (hd : f.denominator ≠ 0) :
    toRat f ≠ 0 := by
  rw [toRat, div_ne_zero_iff]
  exact ⟨by exact_mod_cast hn, by exact_mod_cast hd⟩

theorem is_same_as_iff {a b : Fraction} : a.is_same_as b = true ↔ a = b := by
  cases a; cases b
  simp [Fraction.is_same_as, Fraction.mk.injEq, and_comm]

theorem feq_true_iff {a b : Fraction} : feq a b = true ↔ a.simplify = b.simplify := by
  rw [feq]
  by_cases h : a.is_same_as b = true
  · rw [if_pos h, is_same_as_iff.mp h]
    simp
  · rw [if_neg h]
    exact is_same_as_iff

theorem feq_refl (a : Fraction) : feq a a = true := feq_true_iff.mpr rfl

theorem simplify_eq_of_toRat_eq {a b : Fraction} (han : a.numerator ≠ 0)
    (had : a.denominator ≠ 0) (hbd : b.denominator ≠ 0) (hv : toRat a = toRat b) :
    a.simplify = b.simplify := by
  have hbn : b.numerator ≠ 0 := by
    intro h0
    exact toRat_ne_zero han had (hv.trans (toRat_eq_zero_of_num_eq_zero h0))
  obtain ⟨had', hcopa, _, _⟩ := simplify_spec_core a han had
  obtain ⟨hbd', hcopb, _, _⟩ := simplify_spec_core b hbn hbd
  have hva : toRat a.simplify = toRat b.simplify := by
    rw [toRat_simplify a han had, toRat_simplify b hbn hbd, hv]
  rw [toRat, toRat,
    div_eq_div_iff (by exact_mod_cast had'.ne') (by exact_mod_cast hbd'.ne')] at hva
  have hcross : a.simplify.numerator * b.simplify.denominator
      = b.simplify.numerator * a.simplify.denominator := by exact_mod_cast hva
  obtain ⟨h1, h2⟩ := reduced_unique had' hbd' hcopa hcopb hcross
  exact Fraction.ext h1 h2

/-! ### Algebraic facts about the unnormalized arithmetic -/

theorem fadd_comm_repr (a b : Fraction) : fadd a b = fadd b a := by
  rw [fadd, fadd]
  by_cases h : a.denominator = b.denominator
  · rw [if_pos h, if_pos h.symm]
    exact Fraction.ext (add_comm _ _) h
  · rw [if_neg h, if_neg fun hh => h hh.symm]
    exact Fraction.ext (by ring) (by ring)

theorem fmul_comm_repr (a b : Fraction) : fmul a b = fmul b a :=
  Fraction.ext (mul_comm _ _) (mul_comm _ _)

theorem fmul_assoc_repr (a b c : Fraction) : fmul (fmul a b) c = fmul a (fmul b c) :=
  Fraction.ext (mul_assoc _ _ _) (mul_assoc _ _ _)

theorem den_fadd_ne_zero {a b : Fraction} (ha : a.denominator ≠ 0)
    (hb : b.denominator ≠ 0) : (fadd a b).denominator ≠ 0 := by
  rw [fadd]
  by_cases h : a.denominator = b.denominator
  · rw [if_pos h]; exact ha
  · rw [if_neg h]; exact mul_ne_zero ha hb

theorem toRat_fadd {a b : Fraction} (ha : a.denominator ≠ 0) (hb : b.denominator ≠ 0) :
    toRat (fadd a b) = toRat a + toRat b := by
  have ha' : (a.denominator : ℚ) ≠ 0 := by exact_mod_cast ha
  have hb' : (b.denominator : ℚ) ≠ 0 := by exact_mod_cast hb
  rw [fadd]
  by_cases h : a.denominator = b.denominator
  · rw [if_pos h]
    simp only [toRat, h]
    push_cast
    rw [div_add_div_same]
  · rw [if_neg h]
    simp only [toRat]
    push_cast
    rw [div_add_div _ _ ha' hb']
    ring_nf

/-! ### Step equations for the pipeline loops (all definitional) -/

theorem syaOpLoop_nil (cur : OperatorType) (out : List Token) :
    syaOpLoop cur [] out = .ok ([], out) := rfl

theorem syaOpLoop_num (cur : OperatorType) (f : Fraction) (rest out : List Token) :
    syaOpLoop cur (Token.Number f :: rest) out = .ok (Token.Number f :: rest, out) := rfl

theorem syaOpLoop_op (cur top : OperatorType) (rest out : List Token) :
    syaOpLoop cur (Token.Operator top :: rest) out =
      if top.precedence < cur.precedence then .ok (Token.Operator top :: rest, out)
      else syaOpLoop cur rest (out ++ [Token.Operator top]) := rfl

theorem syaMain_nil (out stack : List Token) : syaMain [] out stack = .ok (out ++ stack) := rfl

theorem syaMain_num (f : Fraction) (ts out stack : List Token) :
    syaMain (Token.Number f :: ts) out stack = syaMain ts (out ++ [Token.Number f]) stack := rfl

theorem syaMain_op (cur : OperatorType) (ts out stack : List Token) :
    syaMain (Token.Operator cur :: ts) out stack =
      match syaOpLoop cur stack out with
      | .ok (stack2, out2) => syaMain ts out2 (Token.Operator cur :: stack2)
      | .error e => .error e := rfl

theorem evalRpnLoop_num (f : Fraction) (ts stack : List Token) :
    evalRpnLoop (Token.Number f :: ts) stack = evalRpnLoop ts (Token.Number f :: stack) := rfl

theorem tokenizeWords_cons (w : List Char) (ws : List (List Char)) :
    tokenizeWords (w :: ws) =
      match classifyToken w with
      | some t =>
        match tokenizeWords ws with
        | .ok ts => .ok (t :: ts)
        | .error e => .error e
      | none => .error EquationError.UnableToTokenize := rfl

/-! ### The shunting-yard conversion never fails -/

theorem syaOpLoop_ok (cur : OperatorType) :
    ∀ (stack out : List Token), ∃ p, syaOpLoop cur stack out = .ok p := by
  intro stack
  induction stack with
  | nil => intro out; exact ⟨([], out), rfl⟩
  | cons t rest ih =>
    intro out
    cases t with
    | Number f => exact ⟨(Token.Number f :: rest, out), syaOpLoop_num cur f rest out⟩
    | Operator top =>
      rw [syaOpLoop_op]
      by_cases h : top.precedence < cur.precedence
      · rw [if_pos h]; exact ⟨_, rfl⟩
      · rw [if_neg h]; exact ih _

theorem syaMain_ok : ∀ (ts out stack : List Token), ∃ r, syaMain ts out stack = .ok r := by
  intro ts
  induction ts with
  | nil => intro out stack; exact ⟨out ++ stack, rfl⟩
  | cons t ts ih =>
    intro out stack
    cases t with
    | Number f =>
      rw [syaMain_num]
      exact ih _ _
    | Operator cur =>
      obtain ⟨⟨stack2, out2⟩, hp⟩ := syaOpLoop_ok cur stack out
      rw [syaMain_op, hp]
      exact ih _ _

/-! ### Evaluating a pure sequence of numbers -/

theorem evalRpnLoop_numbers : ∀ (ns : List Fraction) (stack : List Token),
    evalRpnLoop (ns.map Token.Number) stack
      = evalRpnLoop [] ((ns.map Token.Number).reverse ++ stack) := by
  intro ns
  induction ns with
  | nil => intro stack; rfl
  | cons f fs ih =>
    intro stack
    simp only [List.map_cons, List.reverse_cons, List.append_assoc, List.singleton_append]
    rw [evalRpnLoop_num, ih]

/-! ### Tokenization fails globally on any unclassifiable word -/

theorem tokenizeWords_fails : ∀ (ws : List (List Char)),
    (∃ w ∈ ws, classifyToken w = none) →
    tokenizeWords ws = .error EquationError.UnableToTokenize := by
  intro ws
  induction ws with
  | nil => rintro ⟨w, hw, -⟩; cases hw
  | cons w ws ih =>
    rintro ⟨w', hw', hcl⟩
    rcases List.mem_cons.mp hw' with rfl | hmem
    · rw [tokenizeWords_cons, hcl]
    · rw [tokenizeWords_cons]
      cases hc : classifyToken w with
      | none => rfl
      | some t => rw [ih ⟨w', hmem, hcl⟩]

/-! ## Claim theorems -/

/-- C1 (amended): after processing a postfix token sequence the RPN evaluator
pops a single value and returns it; an empty final stack yields an
`EvaluationError` (`UnableToEvaluate`), but extra unconsumed values are
silently discarded rather than reported: on a pure sequence of number
tokens the evaluator returns the last number (the stack top), erring only
when the sequence is empty. -/
theorem evaluate_rpn_returns_top_of_numbers (ns : List Fraction) :
    evaluate_rpn (ns.map Token.Number)
      = (ns.getLast?).elim (Except.error EquationError.UnableToEvaluate) Except.ok := by
  rw [evaluate_rpn, evalRpnLoop_numbers ns [], List.append_nil]
  induction ns using List.reverseRecOn with
  | nil => rfl
  | append_singleton l a _ =>
    simp only [List.map_append, List.map_cons, List.map_nil, List.reverse_append,
      List.reverse_cons, List.reverse_nil, List.nil_append, List.singleton_append,
      List.getLast?_concat]
    rfl

/-- C1 counterexample: a postfix sequence leaving two values on the stack is
not rejected — `evaluate_rpn [3, 4]` returns `Ok(4)` (the stack top), not an
`EvaluationError`, refuting the claim that more than one remaining value
yields an error. -/
theorem evaluate_rpn_two_values_no_error :
    evaluate_rpn [Token.Number ⟨3, 1⟩, Token.Number ⟨4, 1⟩] = .ok ⟨4, 1⟩ := rfl

/-- C2 (amended): an operand-stack underflow (e.g. `"3 +"`) is rejected with
an `EvaluationError`, and an unparseable word (e.g. `"3 ? 4"`) with a
`TokenizeError`; but not every operand/operator mismatch is rejected (see
the counterexample for `"+ 3 4"`). -/
theorem eval_mismatch_examples :
    eval "3 +" = .error EquationError.UnableToEvaluate ∧
    eval "3 ? 4" = .error EquationError.UnableToTokenize := ⟨rfl, rfl⟩

/-- C2 counterexample: the input `"+ 3 4"` is not rejected: shunting-yard
moves the leading operator after both numbers, producing RPN `3 4 +`, and
the full pipeline returns `Ok(7)` rather than an `EvaluationError` or
`TokenizeError`. -/
theorem eval_prefix_input_succeeds : eval "+ 3 4" = .ok ⟨7, 1⟩ := rfl

/-- C3: evaluating `"1/2 + 2 * -1/8"` succeeds (multiplication binds before
addition and the literal negative fraction is accepted), producing the raw
fraction `4/16`, which is value-equal (`==`) to `1/4`. -/
theorem eval_half_plus_two_times_neg_eighth :
    eval "1/2 + 2 * -1/8" = .ok ⟨4, 16⟩ ∧ feq ⟨4, 16⟩ ⟨1, 4⟩ = true := ⟨rfl, rfl⟩

/-- C4: `simplify` leaves a zero-numerator or zero-denominator fraction
completely unchanged, and otherwise produces a strictly positive
denominator and coprime components (`Int.gcd` is the gcd of the absolute
values). -/
theorem simplify_normalizes_or_noop (f : Fraction) :
    (f.numerator = 0 ∨ f.denominator = 0 → f.simplify = f) ∧
    (f.numerator ≠ 0 → f.denominator ≠ 0 →
      0 < f.simplify.denominator ∧
      Int.gcd f.simplify.numerator f.simplify.denominator = 1) := by
  refine ⟨simplify_noop, fun hn hd => ?_⟩
  obtain ⟨h1, h2, -, -⟩ := simplify_spec_core f hn hd
  exact ⟨h1, h2⟩

/-- C4 witness: concrete instances of both branches of
`simplify_normalizes_or_noop`. -/
theorem simplify_normalizes_or_noop_witness :
    Fraction.simplify ⟨0, 5⟩ = ⟨0, 5⟩ ∧ Fraction.simplify ⟨7, 0⟩ = ⟨7, 0⟩ ∧
    0 < (Fraction.simplify ⟨-6, 4⟩).denominator ∧
    Int.gcd (Fraction.simplify ⟨-6, 4⟩).numerator (Fraction.simplify ⟨-6, 4⟩).denominator = 1 :=
  ⟨(simplify_normalizes_or_noop ⟨0, 5⟩).1 (Or.inl rfl),
   (simplify_normalizes_or_noop ⟨7, 0⟩).1 (Or.inr rfl),
   ((simplify_normalizes_or_noop ⟨-6, 4⟩).2 (by decide) (by decide)).1,
   ((simplify_normalizes_or_noop ⟨-6, 4⟩).2 (by decide) (by decide)).2⟩

/-- C5 (amended): fraction equality `==` is reflexive, symmetric and
transitive, and holds exactly when the two simplified forms are
componentwise identical; `Fraction(6,12) == Fraction(1,2)`; two fractions
with nonzero numerator and denominators denoting the same rational value
are equal — but equality is not fully representation-independent: distinct
representations of zero (or of undefined) compare unequal, since
`simplify` leaves them untouched (see the counterexample). -/
theorem feq_equivalence_and_value :
    (∀ a : Fraction, feq a a = true) ∧
    (∀ a b : Fraction, feq a b = feq b a) ∧
    (∀ a b c : Fraction, feq a b = true → feq b c = true → feq a c = true) ∧
    (∀ a b : Fraction, feq a b = true ↔ a.simplify = b.simplify) ∧
    feq ⟨6, 12⟩ ⟨1, 2⟩ = true ∧
    (∀ a b : Fraction, a.numerator ≠ 0 → a.denominator ≠ 0 → b.denominator ≠ 0 →
      toRat a = toRat b → feq a b = true) := by
  refine ⟨feq_refl, ?_, ?_, fun a b => feq_true_iff, by decide, ?_⟩
  · intro a b
    rw [Bool.eq_iff_iff, feq_true_iff, feq_true_iff]
    exact eq_comm
  · intro a b c hab hbc
    exact feq_true_iff.mpr ((feq_true_iff.mp hab).trans (feq_true_iff.mp hbc))
  · intro a b han had hbd hv
    exact feq_true_iff.mpr (simplify_eq_of_toRat_eq han had hbd hv)

/-- C5 witness: transitivity at `6/12 == 1/2 == 2/4`, and value-based
equality at `1/2 == 3/6`, via `feq_equivalence_and_value`. -/
theorem feq_equivalence_and_value_witness :
    feq ⟨6, 12⟩ ⟨2, 4⟩ = true ∧ feq ⟨1, 2⟩ ⟨3, 6⟩ = true :=
  ⟨feq_equivalence_and_value.2.2.1 ⟨6, 12⟩ ⟨1, 2⟩ ⟨2, 4⟩ (by decide) (by decide),
   feq_equivalence_and_value.2.2.2.2.2 ⟨1, 2⟩ ⟨3, 6⟩ (by decide) (by decide) (by decide)
     (by norm_num [toRat])⟩

/-- C5 counterexample: `Fraction(0,2)` and `Fraction(0,3)` denote the same
rational value (zero) but compare unequal, because `simplify` is a no-op on
zero fractions and the raw representations differ — refuting full
representation-independence of `==`. -/
theorem feq_distinct_zero_representations :
    feq ⟨0, 2⟩ ⟨0, 3⟩ = false ∧ toRat ⟨0, 2⟩ = toRat ⟨0, 3⟩ := by
  refine ⟨rfl, ?_⟩
  norm_num [toRat]

/-- C6 (amended): addition and multiplication are commutative up to `==`
(indeed their raw results coincide componentwise), and multiplication is
associative up to `==`; addition is associative up to `==` whenever all
three denominators are nonzero and the rational value of the sum is
nonzero — but not in general (see the counterexample, where the two
groupings give the zero fractions `0/6` and `0/36`, which `==` deems
unequal). -/
theorem fraction_comm_assoc :
    (∀ a b : Fraction, feq (fadd a b) (fadd b a) = true) ∧
    (∀ a b : Fraction, feq (fmul a b) (fmul b a) = true) ∧
    (∀ a b c : Fraction, feq (fmul (fmul a b) c) (fmul a (fmul b c)) = true) ∧
    (∀ a b c : Fraction, a.denominator ≠ 0 → b.denominator ≠ 0 → c.denominator ≠ 0 →
      toRat a + toRat b + toRat c ≠ 0 →
      feq (fadd (fadd a b) c) (fadd a (fadd b c)) = true) := by
  refine ⟨fun a b => ?_, fun a b => ?_, fun a b c => ?_, fun a b c had hbd hcd hsum => ?_⟩
  · rw [fadd_comm_repr]; exact feq_refl _
  · rw [fmul_comm_repr]; exact feq_refl _
  · rw [fmul_assoc_repr]; exact feq_refl _
  · have h1d : (fadd a b).denominator ≠ 0 := den_fadd_ne_zero had hbd
    have h2d : (fadd (fadd a b) c).denominator ≠ 0 := den_fadd_ne_zero h1d hcd
    have h3d : (fadd b c).denominator ≠ 0 := den_fadd_ne_zero hbd hcd
    have h4d : (fadd a (fadd b c)).denominator ≠ 0 := den_fadd_ne_zero had h3d
    have hv2 : toRat (fadd (fadd a b) c) = toRat a + toRat b + toRat c := by
      rw [toRat_fadd h1d hcd, toRat_fadd had hbd]
    have hv4 : toRat (fadd a (fadd b c)) = toRat a + toRat b + toRat c := by
      rw [toRat_fadd had h3d, toRat_fadd hbd hcd, add_assoc]
    have hn2 : (fadd (fadd a b) c).numerator ≠ 0 := by
      intro h0
      exact hsum (by rw [← hv2, toRat_eq_zero_of_num_eq_zero h0])
    exact feq_true_iff.mpr (simplify_eq_of_toRat_eq hn2 h2d h4d (by rw [hv2, hv4]))

/-- C6 witness: associativity of addition at `1/2, 1/3, 1/6` (sum `1`),
via `fraction_comm_assoc`. -/
theorem fraction_comm_assoc_witness :
    feq (fadd (fadd ⟨1, 2⟩ ⟨1, 3⟩) ⟨1, 6⟩) (fadd ⟨1, 2⟩ (fadd ⟨1, 3⟩ ⟨1, 6⟩)) = true :=
  fraction_comm_assoc.2.2.2 ⟨1, 2⟩ ⟨1, 3⟩ ⟨1, 6⟩ (by decide) (by decide) (by decide)
    (by norm_num [toRat])

/-- C6 counterexample: `(1/2 + 1/3) + (-5/6)` gives the fraction `0/6`,
while `1/2 + (1/3 + (-5/6))` gives `0/36`; both are zero-valued so
`simplify` leaves them untouched and `==` compares them unequal — addition
is not associative up to `==`. -/
theorem fadd_assoc_fails_at_zero_sum :
    feq (fadd (fadd ⟨1, 2⟩ ⟨1, 3⟩) ⟨-5, 6⟩) (fadd ⟨1, 2⟩ (fadd ⟨1, 3⟩ ⟨-5, 6⟩)) = false := rfl

/-- C7: the shunting-yard conversion succeeds on every token sequence —
the defensive `UnableToConvertToPostfix` branch (a pop failing right after
a successful peek of the operator stack) is unreachable. -/
theorem shunting_yard_never_errors (tokens : List Token) :
    ∃ out, shunting_yard_algorithm tokens = .ok out :=
  syaMain_ok tokens [] []

/-- C8: dividing any fraction by a zero-valued fraction, or taking the
reciprocal of a zero-valued fraction, returns normally with no guard:
division is exactly multiplication by the reciprocal, and both results are
undefined fractions (denominator `0`) that are silently propagated. -/
theorem division_by_zero_fraction_unguarded (a b : Fraction) (hb : b.numerator = 0) :
    fdiv a b = fmul a b.reciprocal ∧
    (fdiv a b).is_undefined = true ∧
    (b.reciprocal).is_undefined = true := by
  refine ⟨rfl, ?_, ?_⟩
  · simp [fdiv, fmul, Fraction.reciprocal, Fraction.is_undefined, hb]
  · simp [Fraction.reciprocal, Fraction.is_undefined, hb]

/-- C8 witness: `(1/2) / (0/5)` and `reciprocal (0/5)`, via
`division_by_zero_fraction_unguarded`. -/
theorem division_by_zero_fraction_unguarded_witness :
    fdiv ⟨1, 2⟩ ⟨0, 5⟩ = fmul ⟨1, 2⟩ (Fraction.reciprocal ⟨0, 5⟩) ∧
    (fdiv ⟨1, 2⟩ ⟨0, 5⟩).is_undefined = true ∧
    (Fraction.reciprocal (⟨0, 5⟩ : Fraction)).is_undefined = true :=
  division_by_zero_fraction_unguarded ⟨1, 2⟩ ⟨0, 5⟩ rfl

/-- C9: if any space-separated word of the input is neither one of the four
exact operator symbols nor a parseable fraction literal, the whole
tokenization fails with `UnableToTokenize` (no partial token sequence is
produced). -/
theorem tokenize_fails_on_unparseable_word (input : String)
    (h : ∃ w ∈ splitSpaces input.toList, classifyToken w = none) :
    tokenize input = .error EquationError.UnableToTokenize :=
  tokenizeWords_fails _ h

/-- C9 witness: `"3 ? 4"` contains the unclassifiable word `?`, so
tokenization fails, via `tokenize_fails_on_unparseable_word`. -/
theorem tokenize_fails_on_unparseable_word_witness :
    tokenize "3 ? 4" = .error EquationError.UnableToTokenize :=
  tokenize_fails_on_unparseable_word "3 ? 4" ⟨['?'], by decide, by decide⟩

/-- C10 (amended): the subtractive gcd loop diverges whenever exactly one of
its arguments is zero (it returns immediately when both are zero, since the
loop guard `a != b` fails — see the counterexample); fuel `a + b` suffices
when both arguments are nonzero, with result `Nat.gcd a b`; and under
`simplify`'s zero/undefined guard the loop invoked on `|numerator|` and
`|denominator|` always terminates. -/
theorem gcd_loop_termination :
    (∀ (fuel b : Nat), b ≠ 0 → gcdLoop fuel 0 b = none) ∧
    (∀ (fuel a : Nat), a ≠ 0 → gcdLoop fuel a 0 = none) ∧
    (∀ (fuel a b : Nat), a ≠ 0 → b ≠ 0 → a + b ≤ fuel →
      gcdLoop fuel a b = some (Nat.gcd a b)) ∧
    (∀ f : Fraction, f.is_zero = false → f.is_undefined = false →
      gcdLoop (f.numerator.natAbs + f.denominator.natAbs)
          f.numerator.natAbs f.denominator.natAbs
        = some (Nat.gcd f.numerator.natAbs f.denominator.natAbs)) := by
  refine ⟨gcdLoop_diverges_left, gcdLoop_diverges_right, gcdLoop_computes_gcd, ?_⟩
  intro f hz hu
  have hn : f.numerator ≠ 0 := by simpa [Fraction.is_zero] using hz
  have hd : f.denominator ≠ 0 := by simpa [Fraction.is_undefined] using hu
  exact gcdLoop_computes_gcd _ _ _ (Int.natAbs_ne_zero.mpr hn) (Int.natAbs_ne_zero.mpr hd) le_rfl

/-- C10 witness: concrete instances of all four parts of
`gcd_loop_termination`. -/
theorem gcd_loop_termination_witness :
    gcdLoop 5 0 5 = none ∧ gcdLoop 7 7 0 = none ∧
    gcdLoop 10 6 4 = some (Nat.gcd 6 4) ∧
    gcdLoop ((-6 : Int).natAbs + (4 : Int).natAbs) (-6 : Int).natAbs (4 : Int).natAbs
      = some (Nat.gcd (-6 : Int).natAbs (4 : Int).natAbs) :=
  ⟨gcd_loop_termination.1 5 5 (by decide),
   gcd_loop_termination.2.1 7 7 (by decide),
   gcd_loop_termination.2.2.1 10 6 4 (by decide) (by decide) (by decide),
   gcd_loop_termination.2.2.2 ⟨-6, 4⟩ (by decide) (by decide)⟩

/-- C10 counterexample: with both arguments zero the subtractive loop halts
on its very first iteration (the guard `a != b` is false) and returns `0` —
so it is not the case that the loop diverges whenever one of its arguments
is zero. -/
theorem gcd_loop_halts_on_zero_zero : gcdLoop 1 0 0 = some 0 := rfl

end FracCalc
